import Mathlib

/-
Verification of `src/nano_libc.c` (selfe-sys nano libc shim).

The C file defines three functions:

  * `strcpy(s1, s2)` — copies a null-terminated byte sequence from `s2`
    to `s1`, one byte at a time including the terminator, and returns the
    original `s1`;
  * `debug_puts(s)` — when the build flag `KernelPrinting` is set, sends
    every byte of the null-terminated sequence at `s`, up to but not
    including the terminator, to `seL4_DebugPutChar`, one byte per call;
    when the flag is unset the body is empty;
  * `__assert_fail(expr, file, line, func)` — ignores `line`
    (`(void) line;`), emits via `debug_puts` the fragments
    `"ASSERT "`, `expr`, `" in "`, `func`, `" at "`, `file`, `":??"`,
    then executes `__builtin_trap()` and never returns.

Embedding choices:

  * Memory is a total map `Nat → Nat` from byte addresses to byte values;
    a C pointer is a `Nat` address.
  * The two source loops are embedded as fuel-indexed recursive functions
    returning `Option`: `none` means the loop did not finish within the
    given number of iterations, `some` carries the loop's result.
  * The observable effect of `seL4_DebugPutChar` is recorded as a trace:
    the list of byte values passed to it, in call order.
  * The build flag `KernelPrinting` is a `Bool` parameter fixed per call,
    mirroring the compile-time `#ifdef`.
  * `__builtin_trap` never returning is embedded by giving the assertion
    handler the result type `Outcome`, whose only constructor is
    `halted trace`: there is no constructor for returning to the caller.
  * The string literals of the C file appear via `strBytes`, which maps a
    Lean string literal to its byte list.
-/

/-- A byte-addressed memory: address to byte value. -/
abbrev Mem := Nat → Nat

/-- Store `v` at address `a` (the effect of `*p = v` in C). -/
def memUpd (m : Mem) (a v : Nat) : Mem :=
  fun x => if x = a then v else m x

/-- `strAt m s bs = true` iff memory `m` holds, starting at address `s`,
exactly the nonzero bytes `bs` followed by a zero terminator: the
"validly null-terminated byte sequence" of the spec, with content `bs`. -/
def strAt : Mem → Nat → List Nat → Bool
  | m, s, [] => m s == 0
  | m, s, b :: bs => (m s == b) && (b != 0) && strAt m (s + 1) bs

/-- The loop of C `strcpy`: `while ( ( *s1++ = *s2++ ) );`.
Each iteration reads `*s2`, stores it at `s1` (the store happens even for
the terminator, since the assignment precedes the test), then tests the
stored byte; `fuel` bounds the number of iterations, `none` meaning the
loop did not reach the terminator within `fuel` iterations. -/
def strcpyLoop : Nat → Mem → Nat → Nat → Option Mem
  | 0, _, _, _ => none
  | fuel + 1, m, s1, s2 =>
    let c := m s2
    let m2 := memUpd m s1 c
    if c = 0 then some m2 else strcpyLoop fuel m2 (s1 + 1) (s2 + 1)

/-- C `strcpy`: runs the copy loop and returns the final memory together
with the returned pointer `rc`, which the source sets to the original
`s1` before the loop. -/
def strcpy (fuel : Nat) (m : Mem) (s1 s2 : Nat) : Option (Mem × Nat) :=
  (strcpyLoop fuel m s1 s2).map (fun m2 => (m2, s1))

/-- The loop of C `debug_puts` under `#ifdef KernelPrinting`:
`while ( *s != '\0' ) { seL4_DebugPutChar(*s++); }`.
The result is the trace of byte values passed to `seL4_DebugPutChar`,
in call order; `none` means the terminator was not reached in `fuel`
iterations. -/
def debug_putsLoop : Nat → Mem → Nat → Option (List Nat)
  | 0, _, _ => none
  | fuel + 1, m, s =>
    if m s = 0 then some []
    else (debug_putsLoop fuel m (s + 1)).map (fun tr => m s :: tr)

/-- C `debug_puts`: when the build flag `KernelPrinting` (`kp`) is set,
run the emission loop; when unset the function body is empty, so the call
finishes at once with an empty trace. -/
def debug_puts (kp : Bool) (fuel : Nat) (m : Mem) (s : Nat) : Option (List Nat) :=
  if kp then debug_putsLoop fuel m s else some []

/-- Byte list of a string literal (the bytes of a C string literal,
terminator excluded). -/
def strBytes (s : String) : List Nat :=
  s.toList.map Char.toNat

/-- The trace `debug_puts` produces on a null-terminated sequence whose
content is the byte list `bs`: all of `bs` when `KernelPrinting` is set,
nothing otherwise. Related to the memory-level `debug_puts` by
`debug_puts_strAt` below. -/
def debug_putsTrace (kp : Bool) (bs : List Nat) : List Nat :=
  if kp then bs else []

/-- Result of the assertion handler: the only possible outcome is
`halted trace`, because `__builtin_trap()` never returns; there is no
constructor for normal return. -/
inductive Outcome where
  | halted : List Nat → Outcome
deriving DecidableEq

/-- C `__assert_fail`: discards `line` (`(void) line;`), emits the seven
fragments in source order through `debug_puts`, then traps. The string
arguments `expr`, `file`, `func` are given by the byte lists their
null-terminated sequences hold. -/
def __assert_fail (kp : Bool) (expr file : List Nat) (line : Int)
    (func : List Nat) : Outcome :=
  let _ := line
  Outcome.halted
    (debug_putsTrace kp (strBytes "ASSERT ") ++
     debug_putsTrace kp expr ++
     debug_putsTrace kp (strBytes " in ") ++
     debug_putsTrace kp func ++
     debug_putsTrace kp (strBytes " at ") ++
     debug_putsTrace kp file ++
     debug_putsTrace kp (strBytes ":??"))

/-- A concrete memory holding the two-byte sequence "AB" (65, 66, then a
zero terminator) at address 10, used to instantiate the theorems below. -/
def mem0 : Mem :=
  fun a => if a = 10 then 65 else if a = 11 then 66 else 0

example : strAt mem0 10 [65, 66] = true := by decide

/-! ### Helper lemmas -/

/-- Storing back the byte already present leaves memory unchanged. -/
theorem memUpd_self (m : Mem) (a : Nat) : memUpd m a (m a) = m := by
  funext x
  by_cases h : x = a
  · simp [memUpd, h]
  · simp [memUpd, h]

/-- A null-terminated sequence is unaffected by a store at an address
outside the sequence (content and terminator). -/
theorem strAt_memUpd (bs : List Nat) :
    ∀ (m : Mem) (s a v : Nat), (∀ k, k ≤ bs.length → a ≠ s + k) →
      strAt (memUpd m a v) s bs = strAt m s bs := by
  induction bs with
  | nil =>
    intro m s a v h
    have hs : s ≠ a := by have := h 0 (Nat.zero_le _); omega
    simp [strAt, memUpd, hs]
  | cons b bs ih =>
    intro m s a v h
    have hs : s ≠ a := by have := h 0 (Nat.zero_le _); omega
    have h' : ∀ k, k ≤ bs.length → a ≠ s + 1 + k := by
      intro k hk
      have := h (k + 1) (by simp; omega)
      omega
    simp [strAt, memUpd, hs, ih m (s + 1) a v h']

/-- Every byte of a null-terminated sequence's content is nonzero. -/
theorem strAt_content_ne_zero (bs : List Nat) :
    ∀ (m : Mem) (s : Nat), strAt m s bs = true → ∀ c ∈ bs, c ≠ 0 := by
  induction bs with
  | nil => intro m s _ c hc; cases hc
  | cons b bs ih =>
    intro m s hs c hc
    simp [strAt] at hs
    obtain ⟨⟨_, hbne⟩, hrest⟩ := hs
    rcases List.mem_cons.mp hc with hc | hc
    · omega
    · exact ih m (s + 1) hrest c hc

/-- Main lemma for the copy loop: on a null-terminated source of content
`bs` and a destination region disjoint from the source region, the loop
finishes within `bs.length + 1` iterations, afterwards the destination
holds the same null-terminated sequence, and every address outside the
`bs.length + 1` destination bytes holds its original value. -/
theorem strcpyLoop_spec (bs : List Nat) :
    ∀ (m : Mem) (s1 s2 : Nat),
      strAt m s2 bs = true →
      (∀ i, i ≤ bs.length → ∀ j, j ≤ bs.length → s1 + i ≠ s2 + j) →
      ∃ m2, strcpyLoop (bs.length + 1) m s1 s2 = some m2 ∧
        strAt m2 s1 bs = true ∧
        (∀ a, (∀ i, i ≤ bs.length → a ≠ s1 + i) → m2 a = m a) := by
  induction bs with
  | nil =>
    intro m s1 s2 hs _
    simp [strAt] at hs
    refine ⟨memUpd m s1 (m s2), by simp [strcpyLoop, hs], ?_, ?_⟩
    · simp [strAt, memUpd, hs]
    · intro a ha
      have : a ≠ s1 := by have := ha 0 (Nat.zero_le _); omega
      simp [memUpd, this]
  | cons b bs ih =>
    intro m s1 s2 hs hdisj
    simp [strAt] at hs
    obtain ⟨⟨hb, hbne⟩, hrest⟩ := hs
    have hs1ne : ∀ k, k ≤ bs.length → s1 ≠ s2 + 1 + k := by
      intro k hk
      have := hdisj 0 (Nat.zero_le _) (k + 1) (by simp; omega)
      omega
    have hrest' : strAt (memUpd m s1 b) (s2 + 1) bs = true := by
      rw [strAt_memUpd bs m (s2 + 1) s1 b hs1ne]
      exact hrest
    have hdisj' : ∀ i, i ≤ bs.length → ∀ j, j ≤ bs.length →
        s1 + 1 + i ≠ s2 + 1 + j := by
      intro i hi j hj
      have := hdisj (i + 1) (by simp; omega) (j + 1) (by simp; omega)
      omega
    obtain ⟨m2, hrun, hat, hframe⟩ :=
      ih (memUpd m s1 b) (s1 + 1) (s2 + 1) hrest' hdisj'
    refine ⟨m2, ?_, ?_, ?_⟩
    · have hstep : strcpyLoop (bs.length + 1 + 1) m s1 s2 =
          strcpyLoop (bs.length + 1) (memUpd m s1 b) (s1 + 1) (s2 + 1) := by
        simp [strcpyLoop, hb, hbne]
      simpa [hstep] using hrun
    · have hm2s1 : m2 s1 = b := by
        have h1 : m2 s1 = memUpd m s1 b s1 :=
          hframe s1 (by intro i _; omega)
        simp [memUpd] at h1
        exact h1
      simp [strAt, hm2s1, hbne, hat]
    · intro a ha
      have h1 : m2 a = memUpd m s1 b a := by
        refine hframe a ?_
        intro i hi
        have := ha (i + 1) (by simp; omega)
        omega
      have h2 : a ≠ s1 := by have := ha 0 (Nat.zero_le _); omega
      simp [memUpd, h2] at h1
      exact h1

/-- When destination and source coincide, each iteration stores back the
byte it just read, so the loop finishes with memory literally unchanged. -/
theorem strcpyLoop_alias (bs : List Nat) :
    ∀ (m : Mem) (s : Nat), strAt m s bs = true →
      strcpyLoop (bs.length + 1) m s s = some m := by
  induction bs with
  | nil =>
    intro m s hs
    simp [strAt] at hs
    simp [strcpyLoop, hs]
    rw [← hs]
    exact memUpd_self m s
  | cons b bs ih =>
    intro m s hs
    simp [strAt] at hs
    obtain ⟨⟨hb, hbne⟩, hrest⟩ := hs
    have hself : memUpd m s b = m := by rw [← hb]; exact memUpd_self m s
    have hstep : strcpyLoop (bs.length + 1 + 1) m s s =
        strcpyLoop (bs.length + 1) m (s + 1) (s + 1) := by
      simp [strcpyLoop, hb, hbne, hself]
    simpa [hstep] using ih m (s + 1) hrest

/-- The emission loop on a null-terminated sequence of content `bs`
finishes within `bs.length + 1` iterations, with trace exactly `bs`. -/
theorem debug_putsLoop_spec (bs : List Nat) :
    ∀ (m : Mem) (s : Nat), strAt m s bs = true →
      debug_putsLoop (bs.length + 1) m s = some bs := by
  induction bs with
  | nil =>
    intro m s hs
    simp [strAt] at hs
    simp [debug_putsLoop, hs]
  | cons b bs ih =>
    intro m s hs
    simp [strAt] at hs
    obtain ⟨⟨hb, hbne⟩, hrest⟩ := hs
    show (if m s = 0 then some [] else
        (debug_putsLoop (bs.length + 1) m (s + 1)).map (fun tr => m s :: tr)) =
      some (b :: bs)
    rw [ih m (s + 1) hrest]
    simp [hb, hbne]

/-- Bridge between the memory-level `debug_puts` and the list-level trace
used by the assertion handler: on a null-terminated sequence of content
`bs`, `debug_puts` finishes and its trace is `debug_putsTrace kp bs`
(`bs` itself when `KernelPrinting` is set, empty otherwise). -/
theorem debug_puts_strAt (kp : Bool) (bs : List Nat) (m : Mem) (s : Nat)
    (hs : strAt m s bs = true) :
    debug_puts kp (bs.length + 1) m s = some (debug_putsTrace kp bs) := by
  cases kp with
  | false => simp [debug_puts, debug_putsTrace]
  | true => simp [debug_puts, debug_putsTrace, debug_putsLoop_spec bs m s hs]

/-- `strAt` only depends on the memory values of the sequence's own
addresses. -/
theorem strAt_congr (bs : List Nat) :
    ∀ (m m2 : Mem) (s : Nat),
      (∀ k, k ≤ bs.length → m2 (s + k) = m (s + k)) →
      strAt m2 s bs = strAt m s bs := by
  induction bs with
  | nil =>
    intro m m2 s h
    have h0 : m2 s = m s := by simpa using h 0 (Nat.zero_le _)
    simp [strAt, h0]
  | cons b bs ih =>
    intro m m2 s h
    have h0 : m2 s = m s := by simpa using h 0 (Nat.zero_le _)
    have h' : ∀ k, k ≤ bs.length → m2 (s + 1 + k) = m (s + 1 + k) := by
      intro k hk
      have heq : s + 1 + k = s + (k + 1) := by omega
      rw [heq]
      exact h (k + 1) (by simp; omega)
    simp [strAt, h0, ih m m2 (s + 1) h']

/-! ### Claim theorems -/

/-- C1: for every valid null-terminated source sequence (content `bs`,
length `bs.length + 1` with the terminator) and a destination region of
that capacity disjoint from the source, `strcpy` copies the bytes one at
a time including the terminating zero byte, so that the destination's
first `bs.length + 1` bytes equal the source's, and returns the
destination's original starting address `s1`. -/
theorem strcpy_correct (m : Mem) (s1 s2 : Nat) (bs : List Nat)
    (hsrc : strAt m s2 bs = true)
    (hdisj : ∀ i, i ≤ bs.length → ∀ j, j ≤ bs.length → s1 + i ≠ s2 + j) :
    ∃ m2, strcpy (bs.length + 1) m s1 s2 = some (m2, s1) ∧
      strAt m2 s1 bs = true := by
  obtain ⟨m2, hrun, hat, _⟩ := strcpyLoop_spec bs m s1 s2 hsrc hdisj
  exact ⟨m2, by simp [strcpy, hrun], hat⟩

theorem strcpy_correct_witness :
    ∃ m2, strcpy 3 mem0 0 10 = some (m2, 0) ∧ strAt m2 0 [65, 66] = true :=
  strcpy_correct mem0 0 10 [65, 66] (by decide) (by decide)

/-- C2: with debug output enabled, the assertion handler emits exactly
marker + expression + separator + function + separator + file +
line-placeholder, in that order, one character per call; in particular
for expression "x>0", file "a.c", function "main" the emitted characters
are "ASSERT x>0 in main at a.c:??". -/
theorem assert_fail_message_format :
    (∀ (expr file : List Nat) (line : Int) (func : List Nat),
        __assert_fail true expr file line func =
          Outcome.halted (strBytes "ASSERT " ++ expr ++ strBytes " in " ++
            func ++ strBytes " at " ++ file ++ strBytes ":??")) ∧
    __assert_fail true (strBytes "x>0") (strBytes "a.c") 0 (strBytes "main") =
      Outcome.halted (strBytes "ASSERT x>0 in main at a.c:??") := by
  constructor
  · intro expr file line func
    simp [__assert_fail, debug_putsTrace]
  · decide

/-- C3: for every input and either build configuration the assertion
handler ends in the halt outcome, never returning to its caller; with
debug output disabled the halt still occurs with an empty trace. -/
theorem assert_fail_never_returns :
    (∀ (kp : Bool) (expr file : List Nat) (line : Int) (func : List Nat),
        ∃ tr, __assert_fail kp expr file line func = Outcome.halted tr) ∧
    (∀ (expr file : List Nat) (line : Int) (func : List Nat),
        __assert_fail false expr file line func = Outcome.halted []) :=
  ⟨fun _ _ _ _ _ => ⟨_, rfl⟩, fun _ _ _ _ => rfl⟩

/-- C4: with debug output disabled at build time, `debug_puts` performs
zero calls to the host output primitive on any input and any fuel: its
trace is empty. -/
theorem debug_puts_disabled_silent (fuel : Nat) (m : Mem) (s : Nat) :
    debug_puts false fuel m s = some [] := rfl

/-- C5: with debug output enabled, `debug_puts` on a valid
null-terminated sequence of content `bs` passes exactly the bytes of
`bs`, in order, one per call, to the host primitive; the zero terminator
is not among them. -/
theorem debug_puts_enabled_emits (m : Mem) (s : Nat) (bs : List Nat)
    (hs : strAt m s bs = true) :
    debug_puts true (bs.length + 1) m s = some bs ∧ ∀ c ∈ bs, c ≠ 0 := by
  constructor
  · simpa [debug_putsTrace] using debug_puts_strAt true bs m s hs
  · exact strAt_content_ne_zero bs m s hs

theorem debug_puts_enabled_emits_witness :
    debug_puts true 3 mem0 10 = some [65, 66] ∧ ∀ c ∈ [65, 66], c ≠ 0 :=
  debug_puts_enabled_emits mem0 10 [65, 66] (by decide)

/-- C6: the emitted diagnostic is independent of the line-number
argument: two calls differing only in the line number produce the same
outcome, the line position being a fixed literal placeholder. -/
theorem assert_fail_line_independent (kp : Bool) (expr file : List Nat)
    (l1 l2 : Int) (func : List Nat) :
    __assert_fail kp expr file l1 func = __assert_fail kp expr file l2 func :=
  rfl

/-- C7: on validly null-terminated input, the copy loop and the emission
loop both terminate (within `bs.length + 1` iterations); the assertion
handler is the exception and always ends in the non-returning halt. -/
theorem nano_libc_termination :
    (∀ (m : Mem) (s1 s2 : Nat) (bs : List Nat),
        strAt m s2 bs = true →
        (∀ i, i ≤ bs.length → ∀ j, j ≤ bs.length → s1 + i ≠ s2 + j) →
        ∃ r, strcpy (bs.length + 1) m s1 s2 = some r) ∧
    (∀ (kp : Bool) (m : Mem) (s : Nat) (bs : List Nat),
        strAt m s bs = true →
        ∃ tr, debug_puts kp (bs.length + 1) m s = some tr) ∧
    (∀ (kp : Bool) (expr file : List Nat) (line : Int) (func : List Nat),
        ∃ tr, __assert_fail kp expr file line func = Outcome.halted tr) := by
  refine ⟨?_, ?_, ?_⟩
  · intro m s1 s2 bs hs hdisj
    obtain ⟨m2, hrun, _, _⟩ := strcpyLoop_spec bs m s1 s2 hs hdisj
    exact ⟨(m2, s1), by simp [strcpy, hrun]⟩
  · intro kp m s bs hs
    exact ⟨_, debug_puts_strAt kp bs m s hs⟩
  · intro kp expr file line func
    exact ⟨_, rfl⟩

theorem nano_libc_termination_witness :
    (∃ r, strcpy 3 mem0 0 10 = some r) ∧
    (∃ tr, debug_puts true 3 mem0 10 = some tr) ∧
    (∃ tr, __assert_fail true [120] [97] 7 [109] = Outcome.halted tr) :=
  ⟨nano_libc_termination.1 mem0 0 10 [65, 66] (by decide) (by decide),
   nano_libc_termination.2.1 true mem0 10 [65, 66] (by decide),
   nano_libc_termination.2.2 true [120] [97] 7 [109]⟩

/-- C8: `strcpy` mutates only the destination region: every address
outside the `bs.length + 1` written destination bytes keeps its original
value, and in particular the (disjoint) source sequence is unchanged. -/
theorem strcpy_frame (m : Mem) (s1 s2 : Nat) (bs : List Nat)
    (hsrc : strAt m s2 bs = true)
    (hdisj : ∀ i, i ≤ bs.length → ∀ j, j ≤ bs.length → s1 + i ≠ s2 + j) :
    ∃ m2, strcpy (bs.length + 1) m s1 s2 = some (m2, s1) ∧
      (∀ a, (∀ i, i ≤ bs.length → a ≠ s1 + i) → m2 a = m a) ∧
      strAt m2 s2 bs = true := by
  obtain ⟨m2, hrun, _, hframe⟩ := strcpyLoop_spec bs m s1 s2 hsrc hdisj
  refine ⟨m2, by simp [strcpy, hrun], hframe, ?_⟩
  have hsame : ∀ k, k ≤ bs.length → m2 (s2 + k) = m (s2 + k) := by
    intro k hk
    refine hframe (s2 + k) ?_
    intro i hi
    have := hdisj i hi k hk
    omega
  rw [strAt_congr bs m m2 s2 hsame]
  exact hsrc

theorem strcpy_frame_witness :
    ∃ m2, strcpy 3 mem0 0 10 = some (m2, 0) ∧
      (∀ a, (∀ i, i ≤ [65, 66].length → a ≠ 0 + i) → m2 a = mem0 a) ∧
      strAt m2 10 [65, 66] = true :=
  strcpy_frame mem0 0 10 [65, 66] (by decide) (by decide)

/-- C9: the assertion handler performs no length validation: a call
whose expression string is empty (the function name arbitrary) or whose
function name is empty (the expression arbitrary) is still accepted, the
diagnostic is still emitted with the empty fragment contributing no
characters, and the handler still ends in the non-returning halt under
either build configuration. -/
theorem assert_fail_empty_inputs :
    (∀ (file : List Nat) (line : Int) (func : List Nat),
        __assert_fail true [] file line func =
          Outcome.halted (strBytes "ASSERT " ++ strBytes " in " ++ func ++
            strBytes " at " ++ file ++ strBytes ":??")) ∧
    (∀ (expr file : List Nat) (line : Int),
        __assert_fail true expr file line [] =
          Outcome.halted (strBytes "ASSERT " ++ expr ++ strBytes " in " ++
            strBytes " at " ++ file ++ strBytes ":??")) ∧
    (∀ (kp : Bool) (file : List Nat) (line : Int) (func : List Nat),
        ∃ tr, __assert_fail kp [] file line func = Outcome.halted tr) ∧
    (∀ (kp : Bool) (expr file : List Nat) (line : Int),
        ∃ tr, __assert_fail kp expr file line [] = Outcome.halted tr) := by
  refine ⟨?_, ?_, ?_, ?_⟩
  · intro file line func
    simp [__assert_fail, debug_putsTrace]
  · intro expr file line
    simp [__assert_fail, debug_putsTrace]
  · intro kp file line func
    exact ⟨_, rfl⟩
  · intro kp expr file line
    exact ⟨_, rfl⟩

/-- C10: when destination and source alias exactly (`s1 = s2 = s`) on a
valid null-terminated buffer, `strcpy` still terminates, leaves every
byte of memory unchanged, and returns the buffer's starting address. -/
theorem strcpy_alias_id (m : Mem) (s : Nat) (bs : List Nat)
    (hs : strAt m s bs = true) :
    strcpy (bs.length + 1) m s s = some (m, s) := by
  simp [strcpy, strcpyLoop_alias bs m s hs]

theorem strcpy_alias_id_witness :
    strcpy 3 mem0 10 10 = some (mem0, 10) :=
  strcpy_alias_id mem0 10 [65, 66] (by decide)
